import Mathlib

/-!
Verification of `src/txtcollstats/dirtree_tok_stats.py`.

The Python module is shallowly embedded below: pure functions become Lean
functions over `ℤ`/`ℚ`, fallible code returns `Except String`, the filesystem
seen by `os.walk` is an explicit tree value, and the random source used by
`random.sample` is an explicit list of drawn numbers.  Python floats are
modelled by exact rationals (reals only for the square root inside `stdev`).
-/

namespace TxtCollStats

/-- `ADA_MAX_TOKENS = 8191` (module constant). -/
def ADA_MAX_TOKENS : ℤ := 8191

/-! ## Statistics engine -/

/-- Python's `sorted(seq)` for integer data: the ascending reordering of the
sequence (used internally by `statistics.median` and `np.percentile`). -/
def pySorted (seq : List ℤ) : List ℤ := List.insertionSort (· ≤ ·) seq

/-- `statistics.mean(seq)`: exact arithmetic mean; raises `StatisticsError`
on an empty sequence. -/
def statistics_mean (seq : List ℤ) : Except String ℚ :=
  if seq.length = 0 then .error "mean requires at least one data point"
  else .ok ((seq.map fun x => (x : ℚ)).sum / (seq.length : ℚ))

/-- `statistics.median(seq)`: middle element of the sorted data for odd
length, average of the two middle elements for even length; raises
`StatisticsError` on an empty sequence. -/
def statistics_median (seq : List ℤ) : Except String ℚ :=
  let n := seq.length
  if n = 0 then .error "no median for empty data"
  else
    let s := pySorted seq
    if n % 2 = 1 then .ok ((s.getD (n / 2) 0 : ℚ))
    else .ok (((s.getD (n / 2 - 1) 0 : ℚ) + (s.getD (n / 2) 0 : ℚ)) / 2)

/-- The sample variance `Σ (x - mean)² / (n - 1)` underlying
`statistics.stdev(seq)`; `statistics.stdev` raises `StatisticsError` when the
sequence has fewer than two data points. -/
def sampleVariance (seq : List ℤ) : Except String ℚ :=
  if seq.length < 2 then .error "stdev requires at least two data points"
  else
    let n : ℚ := (seq.length : ℚ)
    let m : ℚ := (seq.map fun x => (x : ℚ)).sum / n
    .ok ((seq.map fun x => ((x : ℚ) - m) ^ 2).sum / (n - 1))

/-- `statistics.stdev(seq)`: square root of the sample variance. -/
noncomputable def statistics_stdev (seq : List ℤ) : Except String ℝ :=
  (sampleVariance seq).map fun v => Real.sqrt (v : ℝ)

/-- Python's builtin `min(seq)`: raises on an empty sequence, otherwise folds
the binary minimum over the sequence. -/
def pyMin (seq : List ℤ) : Except String ℤ :=
  match seq with
  | [] => .error "min() arg is an empty sequence"
  | x :: xs => .ok (xs.foldl Min.min x)

/-- Python's builtin `max(seq)`: raises on an empty sequence, otherwise folds
the binary maximum over the sequence. -/
def pyMax (seq : List ℤ) : Except String ℤ :=
  match seq with
  | [] => .error "max() arg is an empty sequence"
  | x :: xs => .ok (xs.foldl Max.max x)

/-- NumPy's linear interpolation step (`_lerp` on the sorted data): reads the
values at the floor and the ceiling of the virtual index `vi` and interpolates
with the fractional part `gamma`. -/
def npLerp (s : List ℤ) (vi : ℚ) : ℚ :=
  let lo : ℤ := ⌊vi⌋
  let hi : ℤ := ⌈vi⌉
  let g : ℚ := vi - (lo : ℚ)
  let prev : ℚ := (s.getD lo.toNat 0 : ℚ)
  let nxt : ℚ := (s.getD hi.toNat 0 : ℚ)
  prev + g * (nxt - prev)

/-- `np.percentile(seq, p)` with the default (linear-interpolation) method:
the virtual index is `p/100 * (n-1)`; the result interpolates between the
sorted values at the floor and the ceiling of that index.  (NumPy raises on
an empty array; the `n = 0` branch is never reached from `from_int_seq`.) -/
def npPercentile (seq : List ℤ) (p : ℚ) : ℚ :=
  let s := pySorted seq
  if s.length = 0 then 0
  else npLerp s (p / 100 * ((s.length : ℚ) - 1))

/-- The `SummaryStatistics` dataclass, fields in source order. -/
structure SummaryStatistics where
  collname : String
  nsmpl : ℕ
  mean : ℚ
  median : ℚ
  stdev : ℝ
  min : ℤ
  max : ℤ
  percentile_05 : ℚ
  percentile_95 : ℚ
  above_threshold : ℕ
  threshold : ℤ

/-- `SummaryStatistics.from_int_seq(collname, seq, threshold)`.  The field
expressions are evaluated in Python's argument order (`mean`, `median`,
`stdev`, `min`, `max`, then the percentiles and the threshold count), so the
first raising computation determines the error. -/
noncomputable def SummaryStatistics.from_int_seq (collname : String) (seq : List ℤ)
    (threshold : ℤ) : Except String SummaryStatistics := do
  let mean ← statistics_mean seq
  let median ← statistics_median seq
  let stdev ← statistics_stdev seq
  let mn ← pyMin seq
  let mx ← pyMax seq
  pure ⟨collname, seq.length, mean, median, stdev, mn, mx,
    npPercentile seq 5, npPercentile seq 95,
    (seq.map fun x => if x > threshold then (1 : ℕ) else 0).sum, threshold⟩

/-- `summary_statistics(collname, token_lengths)`: calls `from_int_seq` with
the default threshold `ADA_MAX_TOKENS`. -/
noncomputable def summary_statistics (collname : String) (token_lengths : List ℤ) :
    Except String SummaryStatistics :=
  SummaryStatistics.from_int_seq collname token_lengths ADA_MAX_TOKENS

/-- The spec's own percentile definition, stated from its words: for a sorted
sequence the percentile index is `p/100 * (n-1)`; when that index is integral
the value at it is returned, otherwise the values at the two adjacent ranks
are linearly interpolated.  Used only to compare against `npPercentile`. -/
def specLinearPercentile (sorted : List ℤ) (p : ℚ) : ℚ :=
  let n := sorted.length
  let idx : ℚ := p / 100 * ((n : ℚ) - 1)
  let k : ℤ := ⌊idx⌋
  let frac : ℚ := idx - (k : ℚ)
  if frac = 0 then (sorted.getD k.toNat 0 : ℚ)
  else (1 - frac) * (sorted.getD k.toNat 0 : ℚ) + frac * (sorted.getD (k.toNat + 1) 0 : ℚ)

/-! ## Tree walker -/

/-- `EXCLUDE_PATTERNS = ["*.bz2"]` (module constant). -/
def EXCLUDE_PATTERNS : List String := ["*.bz2"]

/-- Glob matching over character lists: `*` matches any (possibly empty)
run of characters, `?` matches any single character, and every other pattern
character matches itself.  This models the wildcard subset of
`fnmatch.fnmatch` that glob patterns such as `"*.bz2"` use (character classes
and case folding do not occur in this program's patterns). -/
def globMatch : List Char → List Char → Bool
  | [], [] => true
  | [], _ :: _ => false
  | '*' :: ps, [] => globMatch ps []
  | '*' :: ps, c :: cs => globMatch ps (c :: cs) || globMatch ('*' :: ps) cs
  | '?' :: _, [] => false
  | '?' :: ps, _ :: cs => globMatch ps cs
  | _ :: _, [] => false
  | p :: ps, c :: cs => p == c && globMatch ps cs
termination_by ps cs => (cs.length, ps.length)

/-- `fnmatch.fnmatch(name, pattern)` (argument order as in Python). -/
def fnmatch (name pattern : String) : Bool :=
  globMatch pattern.toList name.toList

/-- A directory tree as seen by `os.walk`: a node is either a readable
directory with regular files and named subdirectories, or a directory the
process cannot enumerate (missing or unreadable), in which case `os.scandir`
raises `OSError`. -/
inductive FSNode where
  | denied : FSNode
  | dir : List String → List (String × FSNode) → FSNode

/-- `os.scandir` on a node: the file names and subdirectories of a readable
directory, or an `OSError` for a missing/unreadable one. -/
def scandir : FSNode → Except String (List String × List (String × FSNode))
  | .denied => .error "OSError"
  | .dir files subdirs => .ok (files, subdirs)

/-- `os.path.join(a, b)` for the relative path components this program
produces. -/
def pathJoin (a b : String) : String := a ++ "/" ++ b

mutual

/-- `os.walk(top)` (top-down, default `onerror=None`): yields
`(dirpath, filenames)` per readable directory.  The `.denied` branch models
CPython's `except OSError as error: if onerror is not None: onerror(error);
return` — with the default `onerror=None` a failed `scandir` is silently
swallowed and the walk of that directory yields nothing. -/
def osWalk (top : String) : FSNode → List (String × List String)
  | .denied => []
  | .dir files subdirs => (top, files) :: osWalkList top subdirs

/-- The recursive descent of `os.walk` into the subdirectories, in order. -/
def osWalkList (top : String) : List (String × FSNode) → List (String × List String)
  | [] => []
  | (name, child) :: rest => osWalk (pathJoin top name) child ++ osWalkList top rest

end

/-- `list_directory_tree(dir_, exclude_patterns)`: walks the tree and yields
`os.path.join(dirpath, filename)` for every file whose base name matches no
exclusion pattern.  (The Python `exclude_patterns is None` guard is the
caller passing `[]`; all call sites in the program use the default.) -/
def list_directory_tree (root : String) (tree : FSNode) (exclude_patterns : List String) :
    List String :=
  (osWalk root tree).flatMap fun df =>
    (df.2.filter fun filename =>
        !(exclude_patterns.any fun pattern => fnmatch filename pattern)).map
      fun filename => pathJoin df.1 filename

/-! ## Sampler -/

/-- The partial-Fisher–Yates pool loop of CPython's `random.sample`: at step
`i` it draws `j = randbelow(n-i)` (modelled by `rnds.headD 0 % m` over the
still-active pool of size `m`), emits `pool[j]`, and moves the last active
element into slot `j`.  The active region is the list itself; its shrink by
one is the `dropLast`.  (CPython picks between this pool loop and a
rejection-sampling selection set depending on `k`; both return `k` distinct
positions of the population, and the pool loop is the one modelled here.) -/
def samplePool {α : Type} : List α → List ℕ → ℕ → List α
  | _, _, 0 => []
  | [], _, _ + 1 => []
  | p :: ps, rnds, k + 1 =>
      let pool := p :: ps
      let j := rnds.headD 0 % pool.length
      let x := pool.getD j p
      let last := pool.getLast (List.cons_ne_nil p ps)
      x :: samplePool ((pool.set j last).dropLast) rnds.tail k

/-- `random.sample(population, k)`: `ValueError` when `k` exceeds the
population size, otherwise `k` draws without replacement, the randomness
source made explicit as the list of numbers drawn. -/
def random_sample {α : Type} (population : List α) (k : ℕ) (rnds : List ℕ) :
    Except String (List α) :=
  if population.length < k then .error "Sample larger than population or is negative"
  else .ok (samplePool population rnds k)

/-- `sample_filenames(dir_, n)`: materializes the walker's output and hands
it to `random.sample`. -/
def sample_filenames (root : String) (tree : FSNode) (n : ℕ) (rnds : List ℕ) :
    Except String (List String) :=
  random_sample (list_directory_tree root tree EXCLUDE_PATTERNS) n rnds

/-- `sample_token_lengths(dir_, n)`: samples filenames, then maps loader and
tokenizer over them.  Reading a file and counting its tokens (`load_files` +
`count_tokens`, the latter the external `tiktoken` capability) is abstracted
as `tokCount` from file path to token count. -/
def sample_token_lengths (root : String) (tree : FSNode) (n : ℕ) (rnds : List ℕ)
    (tokCount : String → ℕ) : Except String (List ℕ) :=
  (sample_filenames root tree n rnds).map fun filenames => filenames.map tokCount

/-! ## Report renderer -/

/-- Python's `format(x, '.0f')` on an exact value: round half to even. -/
def roundHalfEven (q : ℚ) : ℤ :=
  let f := ⌊q⌋
  let r := q - (f : ℚ)
  if r < 1/2 then f
  else if 1/2 < r then f + 1
  else if f % 2 = 0 then f else f + 1

/-- `f"{v:.0f}"` for a rational-valued field. -/
def formatF0 (q : ℚ) : String := toString (roundHalfEven q)

/-- `roundHalfEven` over the reals (for the `stdev` field). -/
noncomputable def roundHalfEvenR (x : ℝ) : ℤ :=
  let f := ⌊x⌋
  let r := x - (f : ℝ)
  if r < 1/2 then f
  else if 1/2 < r then f + 1
  else if f % 2 = 0 then f else f + 1

/-- `f"{v:.0f}"` for the real-valued `stdev` field. -/
noncomputable def formatF0R (x : ℝ) : String := toString (roundHalfEvenR x)

/-- One interpolated row of the markdown table. -/
noncomputable def tableRow (s : SummaryStatistics) : String :=
  "| " ++ s.collname ++ " | " ++ toString s.nsmpl ++ " | " ++ formatF0 s.mean ++ " | "
    ++ formatF0R s.stdev ++ " | " ++ toString s.min ++ " | " ++ formatF0 s.percentile_05
    ++ " | " ++ formatF0 s.median ++ " | " ++ formatF0 s.percentile_95 ++ " | "
    ++ toString s.max ++ " | " ++ toString s.above_threshold ++ " |"

/-- The literal header line of the table f-string. -/
def tableHeaderLine : String :=
  "| Collection | nsmpl | mean | stdev | min| 5%  | median | 95% | max | >8191 |"

/-- The literal separator line of the table f-string. -/
def tableSepLine : String :=
  "|------------|-------|------|-------|----|-----|--------|-----|-----|-------|"

/-- `smy_stats_list_markdown_table(stats_list)`: the header line, the
separator line, and one row per record (in order), joined by `chr(10)`. -/
noncomputable def smy_stats_list_markdown_table (stats_list : List SummaryStatistics) :
    String :=
  tableHeaderLine ++ "\n" ++ tableSepLine ++ "\n"
    ++ String.intercalate "\n" (stats_list.map tableRow) ++ "\n"

/-- A concrete record produced by the pipeline (used to instantiate theorems
with hypotheses at a known input). -/
noncomputable def demoRecord : SummaryStatistics :=
  match summary_statistics "demo" [0, 1, 10000] with
  | .ok r => r
  | .error _ => ⟨"", 0, 0, 0, 0, 0, 0, 0, 0, 0, 0⟩

/-! ## Lemmas about the statistics engine -/

lemma statistics_mean_ok (seq : List ℤ) (h : seq ≠ []) :
    statistics_mean seq = .ok ((seq.map fun x => (x : ℚ)).sum / (seq.length : ℚ)) := by
  simp [statistics_mean, h]

lemma statistics_median_ok (seq : List ℤ) (h : seq ≠ []) :
    ∃ v, statistics_median seq = .ok v := by
  have hn : seq.length ≠ 0 := by simpa using h
  unfold statistics_median
  simp only [hn, if_false]
  split <;> exact ⟨_, rfl⟩

lemma statistics_stdev_ok (seq : List ℤ) (h : 2 ≤ seq.length) :
    ∃ v, statistics_stdev seq = .ok v := by
  have hn : ¬ seq.length < 2 := by omega
  unfold statistics_stdev sampleVariance
  simp only [hn, if_false]
  exact ⟨_, rfl⟩

lemma pyMin_ok (seq : List ℤ) (h : seq ≠ []) : ∃ v, pyMin seq = .ok v := by
  cases seq with
  | nil => exact absurd rfl h
  | cons x xs => exact ⟨_, rfl⟩

lemma pyMax_ok (seq : List ℤ) (h : seq ≠ []) : ∃ v, pyMax seq = .ok v := by
  cases seq with
  | nil => exact absurd rfl h
  | cons x xs => exact ⟨_, rfl⟩

/-- Successful construction: for `2 ≤ |seq|` every component statistic
succeeds and `from_int_seq` returns the record with the stated fields. -/
lemma from_int_seq_ok_of_two_le (c : String) (t : ℤ) {seq : List ℤ}
    (h : 2 ≤ seq.length) :
    ∃ r, SummaryStatistics.from_int_seq c seq t = .ok r ∧
      statistics_median seq = .ok r.median ∧ pyMin seq = .ok r.min ∧
      pyMax seq = .ok r.max ∧ r.collname = c ∧ r.nsmpl = seq.length ∧
      r.percentile_05 = npPercentile seq 5 ∧ r.percentile_95 = npPercentile seq 95 ∧
      r.above_threshold = (seq.map fun x => if x > t then (1 : ℕ) else 0).sum ∧
      r.threshold = t := by
  have hne : seq ≠ [] := by
    intro hcon; rw [hcon] at h; simp at h
  obtain ⟨med, hmed⟩ := statistics_median_ok seq hne
  obtain ⟨sd, hsd⟩ := statistics_stdev_ok seq h
  obtain ⟨mn, hmn⟩ := pyMin_ok seq hne
  obtain ⟨mx, hmx⟩ := pyMax_ok seq hne
  refine ⟨⟨c, seq.length, (seq.map fun x => (x : ℚ)).sum / (seq.length : ℚ), med, sd, mn, mx,
    npPercentile seq 5, npPercentile seq 95,
    (seq.map fun x => if x > t then (1 : ℕ) else 0).sum, t⟩, ?_, hmed, hmn, hmx,
    rfl, rfl, rfl, rfl, rfl, rfl⟩
  rw [SummaryStatistics.from_int_seq, statistics_mean_ok seq hne, hmed, hsd, hmn, hmx]
  rfl

/-- Inversion: a successful `from_int_seq` determines every field and forces
`2 ≤ |seq|`. -/
lemma from_int_seq_ok_elim {c : String} {t : ℤ} {seq : List ℤ} {r : SummaryStatistics}
    (h : SummaryStatistics.from_int_seq c seq t = .ok r) :
    2 ≤ seq.length ∧ statistics_median seq = .ok r.median ∧ pyMin seq = .ok r.min ∧
      pyMax seq = .ok r.max ∧ r.collname = c ∧ r.nsmpl = seq.length ∧
      r.percentile_05 = npPercentile seq 5 ∧ r.percentile_95 = npPercentile seq 95 ∧
      r.above_threshold = (seq.map fun x => if x > t then (1 : ℕ) else 0).sum ∧
      r.threshold = t := by
  rw [SummaryStatistics.from_int_seq] at h
  rcases hm : statistics_mean seq with e | mean <;> rw [hm] at h
  · exact absurd h (by simp [Bind.bind, Except.bind])
  rcases hmed : statistics_median seq with e | med <;> rw [hmed] at h
  · exact absurd h (by simp [Bind.bind, Except.bind])
  rcases hsd : statistics_stdev seq with e | sd <;> rw [hsd] at h
  · exact absurd h (by simp [Bind.bind, Except.bind])
  rcases hmn : pyMin seq with e | mn <;> rw [hmn] at h
  · exact absurd h (by simp [Bind.bind, Except.bind])
  rcases hmx : pyMax seq with e | mx <;> rw [hmx] at h
  · exact absurd h (by simp [Bind.bind, Except.bind])
  have hr : (⟨c, seq.length, mean, med, sd, mn, mx, npPercentile seq 5, npPercentile seq 95,
      (seq.map fun x => if x > t then (1 : ℕ) else 0).sum, t⟩ : SummaryStatistics) = r := by
    simpa [Bind.bind, Except.bind, Pure.pure, Except.pure] using h
  have hlen : 2 ≤ seq.length := by
    by_contra hcon
    rw [statistics_stdev, sampleVariance, if_pos (by omega)] at hsd
    simp [Except.map] at hsd
  subst hr
  exact ⟨hlen, rfl, rfl, rfl, rfl, rfl, rfl, rfl, rfl, rfl⟩

lemma foldl_min_le (x : ℤ) (xs : List ℤ) : ∀ y ∈ x :: xs, xs.foldl Min.min x ≤ y := by
  induction xs generalizing x with
  | nil => intro y hy; simp only [List.mem_singleton] at hy; simp [hy]
  | cons a as ih =>
    intro y hy
    simp only [List.foldl_cons]
    rcases List.mem_cons.1 hy with rfl | hy'
    · exact le_trans (ih (min y a) (min y a) (List.mem_cons_self _ _)) (min_le_left y a)
    rcases List.mem_cons.1 hy' with rfl | hy''
    · exact le_trans (ih (min x y) (min x y) (List.mem_cons_self _ _)) (min_le_right x y)
    · exact ih (min x a) y (List.mem_cons_of_mem _ hy'')

lemma foldl_min_mem (x : ℤ) (xs : List ℤ) : xs.foldl Min.min x ∈ x :: xs := by
  induction xs generalizing x with
  | nil => simp
  | cons a as ih =>
    simp only [List.foldl_cons]
    rcases List.mem_cons.1 (ih (min x a)) with h1 | h1
    · rw [h1]
      rcases min_choice x a with h2 | h2 <;> rw [h2]
      · exact List.mem_cons_self _ _
      · exact List.mem_cons_of_mem _ (List.mem_cons_self _ _)
    · exact List.mem_cons_of_mem _ (List.mem_cons_of_mem _ h1)

lemma foldl_max_ge (x : ℤ) (xs : List ℤ) : ∀ y ∈ x :: xs, y ≤ xs.foldl Max.max x := by
  induction xs generalizing x with
  | nil => intro y hy; simp only [List.mem_singleton] at hy; simp [hy]
  | cons a as ih =>
    intro y hy
    simp only [List.foldl_cons]
    rcases List.mem_cons.1 hy with rfl | hy'
    · exact le_trans (le_max_left y a) (ih (max y a) (max y a) (List.mem_cons_self _ _))
    rcases List.mem_cons.1 hy' with rfl | hy''
    · exact le_trans (le_max_right x y) (ih (max x y) (max x y) (List.mem_cons_self _ _))
    · exact ih (max x a) y (List.mem_cons_of_mem _ hy'')

lemma foldl_max_mem (x : ℤ) (xs : List ℤ) : xs.foldl Max.max x ∈ x :: xs := by
  induction xs generalizing x with
  | nil => simp
  | cons a as ih =>
    simp only [List.foldl_cons]
    rcases List.mem_cons.1 (ih (max x a)) with h1 | h1
    · rw [h1]
      rcases max_choice x a with h2 | h2 <;> rw [h2]
      · exact List.mem_cons_self _ _
      · exact List.mem_cons_of_mem _ (List.mem_cons_self _ _)
    · exact List.mem_cons_of_mem _ (List.mem_cons_of_mem _ h1)

/-- `pyMin` returns a member of the sequence that bounds it from below. -/
lemma pyMin_le {seq : List ℤ} {m : ℤ} (h : pyMin seq = .ok m) :
    m ∈ seq ∧ ∀ y ∈ seq, m ≤ y := by
  cases seq with
  | nil => simp [pyMin] at h
  | cons x xs =>
    have hm : m = xs.foldl Min.min x := by simpa [pyMin] using h.symm
    subst hm
    exact ⟨foldl_min_mem x xs, foldl_min_le x xs⟩

/-- `pyMax` returns a member of the sequence that bounds it from above. -/
lemma pyMax_ge {seq : List ℤ} {m : ℤ} (h : pyMax seq = .ok m) :
    m ∈ seq ∧ ∀ y ∈ seq, y ≤ m := by
  cases seq with
  | nil => simp [pyMax] at h
  | cons x xs =>
    have hm : m = xs.foldl Max.max x := by simpa [pyMax] using h.symm
    subst hm
    exact ⟨foldl_max_mem x xs, foldl_max_ge x xs⟩

/-- The indicator sum the source uses for `above_threshold` counts exactly the
elements strictly above the threshold. -/
lemma sum_indicator_eq_length_filter (seq : List ℤ) (t : ℤ) :
    (seq.map fun x => if x > t then (1 : ℕ) else 0).sum =
      (seq.filter fun x => t < x).length := by
  induction seq with
  | nil => rfl
  | cons a as ih =>
    by_cases h : t < a
    · simp [List.filter_cons, h, ih, GT.gt]
      omega
    · simp [List.filter_cons, h, ih, GT.gt]

/-! ## Claim theorems: statistics engine counting and arity -/

/-- C3: for a record built by `from_int_seq(collname, S, t)` the
`above_threshold` field equals the number of elements of `S` strictly greater
than `t`; in particular it is `0` when `t` is the maximum of `S` and `|S|`
when `t` is the minimum of `S` minus one. -/
theorem C3_above_threshold_count (c : String) (seq : List ℤ) (t : ℤ)
    (r : SummaryStatistics) (h : SummaryStatistics.from_int_seq c seq t = .ok r) :
    r.above_threshold = (seq.filter fun x => t < x).length ∧
    (t = r.max → r.above_threshold = 0) ∧
    (t = r.min - 1 → r.above_threshold = seq.length) := by
  obtain ⟨hlen, hmed, hmn, hmx, -, -, -, -, habove, hth⟩ := from_int_seq_ok_elim h
  have hcount : r.above_threshold = (seq.filter fun x => t < x).length := by
    rw [habove, sum_indicator_eq_length_filter]
  refine ⟨hcount, ?_, ?_⟩
  · intro ht
    rw [hcount, List.length_eq_zero, List.filter_eq_nil_iff]
    intro a ha
    have hb := (pyMax_ge hmx).2 a ha
    simp only [decide_eq_true_eq]
    omega
  · intro ht
    rw [hcount]
    have hfull : seq.filter (fun x => t < x) = seq :=
      List.filter_eq_self.2 fun a ha => by
        have hb := (pyMin_le hmn).2 a ha
        simp only [decide_eq_true_eq]
        omega
    rw [hfull]

/-- C3 witness at `S = [0, 1, 10000]`, `t = 8191`. -/
theorem C3_above_threshold_count_witness :
    demoRecord.above_threshold =
      (([0, 1, 10000] : List ℤ).filter fun x => (8191 : ℤ) < x).length ∧
    ((8191 : ℤ) = demoRecord.max → demoRecord.above_threshold = 0) ∧
    ((8191 : ℤ) = demoRecord.min - 1 →
      demoRecord.above_threshold = ([0, 1, 10000] : List ℤ).length) :=
  C3_above_threshold_count "demo" [0, 1, 10000] 8191 demoRecord rfl

/-- C5: `from_int_seq` produces a record exactly when the sequence has at
least two elements; a one-element sequence makes `statistics.stdev` raise its
`StatisticsError`. -/
theorem C5_stdev_needs_two (c : String) (seq : List ℤ) (t : ℤ) :
    ((∃ r, SummaryStatistics.from_int_seq c seq t = .ok r) ↔ 2 ≤ seq.length) ∧
    (seq.length = 1 →
      SummaryStatistics.from_int_seq c seq t =
        .error "stdev requires at least two data points") := by
  constructor
  · constructor
    · rintro ⟨r, hr⟩
      exact (from_int_seq_ok_elim hr).1
    · intro h2
      obtain ⟨r, hr, -⟩ := from_int_seq_ok_of_two_le c t h2
      exact ⟨r, hr⟩
  · intro h1
    rcases seq with - | ⟨x, - | ⟨y, tl⟩⟩
    · simp at h1
    · rfl
    · simp at h1

/-- C5 witness at the one-element sequence `[5]`. -/
theorem C5_stdev_needs_two_witness :
    (([5] : List ℤ)).length = 1 ∧
    SummaryStatistics.from_int_seq "w" [5] 0 =
      .error "stdev requires at least two data points" :=
  ⟨rfl, (C5_stdev_needs_two "w" [5] 0).2 rfl⟩

/-- C10: `summary_statistics` calls `from_int_seq` with no threshold
argument, i.e. with the default `ADA_MAX_TOKENS`, so every record an
end-to-end run produces carries `threshold = 8191`. -/
theorem C10_threshold_not_configurable :
    (∀ c seq, summary_statistics c seq =
      SummaryStatistics.from_int_seq c seq ADA_MAX_TOKENS) ∧
    (∀ c seq r, summary_statistics c seq = .ok r → r.threshold = 8191) := by
  refine ⟨fun c seq => rfl, fun c seq r h => ?_⟩
  rw [summary_statistics] at h
  have hth := (from_int_seq_ok_elim h).2.2.2.2.2.2.2.2.2
  rw [hth]
  rfl

/-- C10 witness: the record of a concrete pipeline run carries 8191. -/
theorem C10_threshold_not_configurable_witness : demoRecord.threshold = 8191 :=
  C10_threshold_not_configurable.2 "demo" [0, 1, 10000] demoRecord rfl

/-! ## Claim theorems: report renderer -/

/-- C9: the table produced by `smy_stats_list_markdown_table` begins with the
literal header row, whose last column is the literal `>8191`, for every list
of records and hence regardless of the threshold values they store. -/
theorem C9_header_hardcoded (stats_list : List SummaryStatistics) :
    ∃ rest, smy_stats_list_markdown_table stats_list =
      "| Collection | nsmpl | mean | stdev | min| 5%  | median | 95% | max | >8191 |\n"
        ++ rest := by
  refine ⟨tableSepLine ++ "\n" ++ String.intercalate "\n" (stats_list.map tableRow)
    ++ "\n", ?_⟩
  rw [smy_stats_list_markdown_table,
    show ("| Collection | nsmpl | mean | stdev | min| 5%  | median | 95% | max | >8191 |\n"
      : String) = tableHeaderLine ++ "\n" from rfl]
  simp [String.append_assoc]

/-! ## Claim theorems: tree walker error behaviour (C7) -/

/-- C7 counterexample: `os.scandir` on a missing/unreadable root raises an
`OSError`, yet `list_directory_tree` yields the empty sequence instead of
propagating any error — the default `os.walk(onerror=None)` suppresses it. -/
theorem C7_counterexample :
    scandir FSNode.denied = .error "OSError" ∧
    list_directory_tree "/missing" FSNode.denied EXCLUDE_PATTERNS = [] :=
  ⟨rfl, rfl⟩

/-- C7 (amended): when the root directory does not exist or is not readable,
`list_directory_tree` does not fail with an I/O error; `os.walk`'s default
error handling swallows the `scandir` error and the walker yields no paths. -/
theorem C7_missing_root_yields_empty (root : String) (pats : List String) :
    scandir FSNode.denied = .error "OSError" ∧
    list_directory_tree root FSNode.denied pats = [] :=
  ⟨rfl, rfl⟩

/-! ## Claim theorems: sampler size behaviour (C8) -/

/-- C8 counterexample: a collection directory holding a single file, sampled
with `n = 2` (a fortiori the default 10000), makes the pipeline fail with
`random.sample`'s `ValueError` instead of proceeding with the available
population. -/
theorem C8_counterexample :
    sample_token_lengths "root" (FSNode.dir ["a.txt"] []) 2 [0] (fun _ => 0) =
      .error "Sample larger than population or is negative" := by
  simp [sample_token_lengths, sample_filenames, random_sample, list_directory_tree,
    osWalk, osWalkList, EXCLUDE_PATTERNS, fnmatch, globMatch, pathJoin, Except.map]

/-- C8 (amended): the requested sample size is not capped by the population;
whenever the directory holds fewer non-excluded files than `n`, the pipeline
fails with the sampling error. -/
theorem C8_sample_size_not_capped (root : String) (tree : FSNode) (n : ℕ)
    (rnds : List ℕ) (tokCount : String → ℕ)
    (h : (list_directory_tree root tree EXCLUDE_PATTERNS).length < n) :
    sample_token_lengths root tree n rnds tokCount =
      .error "Sample larger than population or is negative" := by
  rw [sample_token_lengths, sample_filenames, random_sample, if_pos h]
  rfl

/-- C8 witness at a one-file directory with `n = 2`. -/
theorem C8_sample_size_not_capped_witness :
    (list_directory_tree "root" (FSNode.dir ["a.txt"] []) EXCLUDE_PATTERNS).length < 2 ∧
    sample_token_lengths "root" (FSNode.dir ["a.txt"] []) 2 [7] (fun _ => 3) =
      .error "Sample larger than population or is negative" :=
  ⟨by simp [list_directory_tree, osWalk, osWalkList, EXCLUDE_PATTERNS, fnmatch,
      globMatch, pathJoin],
   C8_sample_size_not_capped "root" (FSNode.dir ["a.txt"] []) 2 [7] (fun _ => 3)
     (by simp [list_directory_tree, osWalk, osWalkList, EXCLUDE_PATTERNS, fnmatch,
        globMatch, pathJoin])⟩

/-! ## Claim theorems: tree walker exclusion patterns (C6) -/

/-- C6: with the default exclusion patterns, `list_directory_tree` yields
exactly the walked files whose BASE filename does not match `*.bz2`: every
yielded path comes from a walk entry with a non-matching base filename, every
non-matching walk entry is yielded (so `archive.tar` is and `archive.bz2` is
not), and the decision depends on the base filename only — a file whose full
path matches an exclusion pattern but whose base name does not is still
yielded. -/
theorem C6_exclusion_basename_only :
    (∀ root tree p, p ∈ list_directory_tree root tree EXCLUDE_PATTERNS →
      ∃ d fs f, (d, fs) ∈ osWalk root tree ∧ f ∈ fs ∧ p = pathJoin d f ∧
        fnmatch f "*.bz2" = false) ∧
    (∀ root tree d fs f, (d, fs) ∈ osWalk root tree → f ∈ fs →
      fnmatch f "*.bz2" = false →
      pathJoin d f ∈ list_directory_tree root tree EXCLUDE_PATTERNS) ∧
    fnmatch "archive.bz2" "*.bz2" = true ∧
    fnmatch "archive.tar" "*.bz2" = false ∧
    list_directory_tree "root" (FSNode.dir ["archive.bz2", "archive.tar"] [])
      EXCLUDE_PATTERNS = ["root/archive.tar"] ∧
    fnmatch "root/sub/data" "*sub*" = true ∧
    list_directory_tree "root" (FSNode.dir [] [("sub", FSNode.dir ["data"] [])])
      ["*sub*"] = ["root/sub/data"] := by
  refine ⟨?_, ?_, ?_, ?_, ?_, ?_, ?_⟩
  · intro root tree p hp
    simp only [list_directory_tree, List.mem_flatMap, List.mem_map, List.mem_filter,
      EXCLUDE_PATTERNS, List.any_cons, List.any_nil, Bool.or_false,
      Bool.not_eq_true'] at hp
    obtain ⟨⟨d, fs⟩, hdf, f, ⟨hf, hmatch⟩, rfl⟩ := hp
    exact ⟨d, fs, f, hdf, hf, rfl, hmatch⟩
  · intro root tree d fs f hdf hf hmatch
    simp only [list_directory_tree, List.mem_flatMap, List.mem_map, List.mem_filter,
      EXCLUDE_PATTERNS, List.any_cons, List.any_nil, Bool.or_false,
      Bool.not_eq_true']
    exact ⟨(d, fs), hdf, f, ⟨hf, hmatch⟩, rfl⟩
  · simp [fnmatch, globMatch]
  · simp [fnmatch, globMatch]
  · simp [list_directory_tree, osWalk, osWalkList, EXCLUDE_PATTERNS, fnmatch,
      globMatch, pathJoin]
  · simp [fnmatch, globMatch]
  · simp [list_directory_tree, osWalk, osWalkList, EXCLUDE_PATTERNS, fnmatch,
      globMatch, pathJoin]

/-- C6 witness: a concrete walk entry with a non-matching base filename is
yielded. -/
theorem C6_exclusion_basename_only_witness :
    ("r", ["a"]) ∈ osWalk "r" (FSNode.dir ["a"] []) ∧ "a" ∈ (["a"] : List String) ∧
    fnmatch "a" "*.bz2" = false ∧
    pathJoin "r" "a" ∈ list_directory_tree "r" (FSNode.dir ["a"] []) EXCLUDE_PATTERNS := by
  have h1 : ("r", ["a"]) ∈ osWalk "r" (FSNode.dir ["a"] []) := by
    simp [osWalk, osWalkList]
  have h2 : "a" ∈ (["a"] : List String) := by simp
  have h3 : fnmatch "a" "*.bz2" = false := by simp [fnmatch, globMatch]
  exact ⟨h1, h2, h3,
    C6_exclusion_basename_only.2.1 "r" (FSNode.dir ["a"] []) "r" ["a"] "a" h1 h2 h3⟩

/-! ## Sampler lemmas (C4) -/

/-- One step of the `random.sample` pool loop removes exactly the picked
element: the picked value consed onto the shrunken pool is a permutation of
the pool. -/
lemma pool_step_perm {α : Type} :
    ∀ (pool : List α) (j : ℕ) (hne : pool ≠ []) (hj : j < pool.length),
      List.Perm (pool.get ⟨j, hj⟩ :: (pool.set j (pool.getLast hne)).dropLast) pool := by
  intro pool
  induction pool with
  | nil => intro j hne hj; exact absurd rfl hne
  | cons a rest ih =>
    intro j hne hj
    match j, rest with
    | 0, [] => simp
    | 0, b :: t =>
      have hbt : (b :: t) ≠ [] := List.cons_ne_nil b t
      rw [List.getLast_cons hbt, List.set_cons_zero, List.dropLast_cons₂]
      refine List.Perm.cons a ?_
      have h1 : List.Perm ((b :: t).dropLast ++ [(b :: t).getLast hbt])
          ((b :: t).getLast hbt :: (b :: t).dropLast) :=
        List.perm_append_singleton _ _
      rw [List.dropLast_append_getLast hbt] at h1
      exact h1.symm
    | j' + 1, rest =>
      have hrest : rest ≠ [] := by
        intro hcon
        subst hcon
        simp at hj
      have hj' : j' < rest.length := by simpa using hj
      rw [List.getLast_cons hrest, List.set_cons_succ,
        List.dropLast_cons_of_ne_nil (by simp [List.set_eq_nil_iff, hrest])]
      have hget : (a :: rest).get ⟨j' + 1, hj⟩ = rest.get ⟨j', hj'⟩ := rfl
      rw [hget]
      exact (List.Perm.swap a (rest.get ⟨j', hj'⟩) _).trans
        (List.Perm.cons a (ih j' hrest hj'))

/-- The pool loop of `random.sample`, run for `k ≤ |pool|` steps, returns
`k` values drawn from the pool, all distinct when the pool is
duplicate-free. -/
lemma samplePool_facts {α : Type} :
    ∀ (k : ℕ) (pool : List α) (rnds : List ℕ), k ≤ pool.length →
      (samplePool pool rnds k).length = k ∧
      (∀ x ∈ samplePool pool rnds k, x ∈ pool) ∧
      (pool.Nodup → (samplePool pool rnds k).Nodup) := by
  intro k
  induction k with
  | zero =>
    intro pool rnds h
    match pool with
    | [] => exact ⟨rfl, by simp [samplePool], fun _ => by simp [samplePool]⟩
    | p :: ps => exact ⟨rfl, by simp [samplePool], fun _ => by simp [samplePool]⟩
  | succ k ih =>
    intro pool rnds h
    match pool with
    | [] => simp at h
    | p :: ps =>
      have hne : (p :: ps) ≠ [] := List.cons_ne_nil p ps
      have hjlt : rnds.headD 0 % (p :: ps).length < (p :: ps).length :=
        Nat.mod_lt _ (by simp)
      have hperm := pool_step_perm (p :: ps) (rnds.headD 0 % (p :: ps).length) hne hjlt
      have heq : samplePool (p :: ps) rnds (k + 1) =
          (p :: ps).getD (rnds.headD 0 % (p :: ps).length) p ::
            samplePool (((p :: ps).set (rnds.headD 0 % (p :: ps).length)
              ((p :: ps).getLast hne)).dropLast) rnds.tail k := rfl
      have hgetD : (p :: ps).getD (rnds.headD 0 % (p :: ps).length) p =
          (p :: ps).get ⟨rnds.headD 0 % (p :: ps).length, hjlt⟩ :=
        List.getD_eq_getElem _ _ hjlt
      have hlen' : (((p :: ps).set (rnds.headD 0 % (p :: ps).length)
          ((p :: ps).getLast hne)).dropLast).length = ps.length := by
        simp [List.length_set]
      have hk' : k ≤ (((p :: ps).set (rnds.headD 0 % (p :: ps).length)
          ((p :: ps).getLast hne)).dropLast).length := by
        rw [hlen']
        simpa using h
      obtain ⟨ihlen, ihmem, ihnodup⟩ := ih _ rnds.tail hk'
      rw [heq, hgetD]
      refine ⟨by rw [List.length_cons, ihlen], ?_, ?_⟩
      · intro x hx
        rcases List.mem_cons.1 hx with rfl | hx'
        · exact List.get_mem _ _ _
        · exact hperm.subset (List.mem_cons_of_mem _ (ihmem x hx'))
      · intro hnd
        have hnd' := (hperm.nodup_iff).2 hnd
        rcases List.nodup_cons.1 hnd' with ⟨hnotmem, hndpool'⟩
        refine List.nodup_cons.2 ⟨fun hmem => hnotmem (ihmem _ hmem), ihnodup hndpool'⟩

/-! ## Claim theorem: sampling without replacement (C4) -/

/-- C4: when the walker's enumerated population has no duplicate paths,
`sample_filenames` on a request `n` within the population size returns
exactly `n` distinct paths, all members of the population, and fails with
`random.sample`'s `ValueError` when `n` exceeds the population size. -/
theorem C4_sampling_without_replacement (root : String) (tree : FSNode) (n : ℕ)
    (rnds : List ℕ)
    (hnd : (list_directory_tree root tree EXCLUDE_PATTERNS).Nodup) :
    (n ≤ (list_directory_tree root tree EXCLUDE_PATTERNS).length →
      ∃ l, sample_filenames root tree n rnds = .ok l ∧ l.length = n ∧ l.Nodup ∧
        ∀ x ∈ l, x ∈ list_directory_tree root tree EXCLUDE_PATTERNS) ∧
    ((list_directory_tree root tree EXCLUDE_PATTERNS).length < n →
      sample_filenames root tree n rnds =
        .error "Sample larger than population or is negative") := by
  constructor
  · intro hle
    obtain ⟨hlen, hmem, hnodup⟩ := samplePool_facts n _ rnds hle
    exact ⟨_, by rw [sample_filenames, random_sample, if_neg (by omega)],
      hlen, hnodup hnd, hmem⟩
  · intro hlt
    rw [sample_filenames, random_sample, if_pos hlt]

/-- C4 witness at a three-file directory, sampling two paths. -/
theorem C4_sampling_without_replacement_witness :
    (list_directory_tree "r" (FSNode.dir ["a", "b", "c"] []) EXCLUDE_PATTERNS).Nodup ∧
    2 ≤ (list_directory_tree "r" (FSNode.dir ["a", "b", "c"] []) EXCLUDE_PATTERNS).length ∧
    ∃ l, sample_filenames "r" (FSNode.dir ["a", "b", "c"] []) 2 [1, 0] = .ok l ∧
      l.length = 2 ∧ l.Nodup ∧
      ∀ x ∈ l, x ∈ list_directory_tree "r" (FSNode.dir ["a", "b", "c"] [])
        EXCLUDE_PATTERNS := by
  have hpop : list_directory_tree "r" (FSNode.dir ["a", "b", "c"] []) EXCLUDE_PATTERNS
      = ["r/a", "r/b", "r/c"] := by
    simp [list_directory_tree, osWalk, osWalkList, EXCLUDE_PATTERNS, fnmatch,
      globMatch, pathJoin]
  have hnd : (list_directory_tree "r" (FSNode.dir ["a", "b", "c"] [])
      EXCLUDE_PATTERNS).Nodup := by
    rw [hpop]
    decide
  have hle : 2 ≤ (list_directory_tree "r" (FSNode.dir ["a", "b", "c"] [])
      EXCLUDE_PATTERNS).length := by
    rw [hpop]
    decide
  exact ⟨hnd, hle,
    (C4_sampling_without_replacement "r" (FSNode.dir ["a", "b", "c"] []) 2 [1, 0] hnd).1 hle⟩

/-! ## Percentile lemmas (C1, C2) -/

lemma npLerp_def (s : List ℤ) (vi : ℚ) :
    npLerp s vi = (s.getD ⌊vi⌋.toNat 0 : ℚ) +
      (vi - (⌊vi⌋ : ℚ)) * ((s.getD ⌈vi⌉.toNat 0 : ℚ) - (s.getD ⌊vi⌋.toNat 0 : ℚ)) := rfl

lemma ceil_eq_floor_add_one_of_ne {q : ℚ} (h : (⌊q⌋ : ℚ) ≠ q) : ⌈q⌉ = ⌊q⌋ + 1 := by
  have h1 : ⌈q⌉ ≤ ⌊q⌋ + 1 := Int.ceil_le_floor_add_one q
  have h2 : (⌊q⌋ : ℚ) < q := lt_of_le_of_ne (Int.floor_le q) h
  have h3 : q ≤ (⌈q⌉ : ℚ) := Int.le_ceil q
  have h4 : ⌊q⌋ < ⌈q⌉ := by exact_mod_cast lt_of_lt_of_le h2 h3
  omega

lemma floor_toNat_lt {vi : ℚ} {n : ℕ} (h0 : 0 ≤ vi) (h1 : vi ≤ (n : ℚ) - 1) :
    ⌊vi⌋.toNat < n := by
  have ha : 0 ≤ ⌊vi⌋ := Int.floor_nonneg.2 h0
  have hb : ⌊vi⌋ ≤ (n : ℤ) - 1 := by
    have hcast : ((n : ℤ) - 1 : ℤ) = ⌊((n : ℚ) - 1 : ℚ)⌋ := by
      rw [show ((n : ℚ) - 1 : ℚ) = (((n : ℤ) - 1 : ℤ) : ℚ) by push_cast; ring,
        Int.floor_intCast]
    rw [hcast]
    exact Int.floor_mono h1
  omega

lemma ceil_toNat_lt {vi : ℚ} {n : ℕ} (h0 : 0 ≤ vi) (h1 : vi ≤ (n : ℚ) - 1) :
    ⌈vi⌉.toNat < n := by
  have ha : 0 ≤ ⌊vi⌋ := Int.floor_nonneg.2 h0
  have hab : ⌊vi⌋ ≤ ⌈vi⌉ := Int.floor_le_ceil vi
  have hb : ⌈vi⌉ ≤ (n : ℤ) - 1 := by
    rw [Int.ceil_le]
    push_cast
    linarith
  omega

lemma floor_toNat_le_ceil_toNat {vi : ℚ} (h0 : 0 ≤ vi) : ⌊vi⌋.toNat ≤ ⌈vi⌉.toNat := by
  have ha : 0 ≤ ⌊vi⌋ := Int.floor_nonneg.2 h0
  have hab : ⌊vi⌋ ≤ ⌈vi⌉ := Int.floor_le_ceil vi
  omega

/-- Entries of a `≤`-sorted list are monotone in the index. -/
lemma sorted_getD_mono {s : List ℤ} (hs : List.Sorted (· ≤ ·) s) {i j : ℕ}
    (hij : i ≤ j) (hj : j < s.length) : s.getD i 0 ≤ s.getD j 0 := by
  have hi : i < s.length := lt_of_le_of_lt hij hj
  rw [List.getD_eq_getElem _ _ hi, List.getD_eq_getElem _ _ hj]
  have := @List.Sorted.rel_get_of_le ℤ (· ≤ ·) _ s hs ⟨i, hi⟩ ⟨j, hj⟩
    (Fin.mk_le_mk.mpr hij)
  simpa using this

/-- The interpolated value lies between the two sorted entries it reads. -/
lemma npLerp_bounds (s : List ℤ) (hs : List.Sorted (· ≤ ·) s) (vi : ℚ)
    (h0 : 0 ≤ vi) (h1 : vi ≤ (s.length : ℚ) - 1) :
    (s.getD ⌊vi⌋.toNat 0 : ℚ) ≤ npLerp s vi ∧
    npLerp s vi ≤ (s.getD ⌈vi⌉.toNat 0 : ℚ) := by
  have hhi : ⌈vi⌉.toNat < s.length := ceil_toNat_lt h0 h1
  have hpn : s.getD ⌊vi⌋.toNat 0 ≤ s.getD ⌈vi⌉.toNat 0 :=
    sorted_getD_mono hs (floor_toNat_le_ceil_toNat h0) hhi
  have hpnQ : (s.getD ⌊vi⌋.toNat 0 : ℚ) ≤ (s.getD ⌈vi⌉.toNat 0 : ℚ) := by
    exact_mod_cast hpn
  have hg0 : 0 ≤ vi - (⌊vi⌋ : ℚ) := sub_nonneg.2 (Int.floor_le vi)
  have hg1 : vi - (⌊vi⌋ : ℚ) ≤ 1 := by
    have := Int.lt_floor_add_one vi
    linarith
  constructor <;> rw [npLerp_def] <;> nlinarith [mul_nonneg hg0 (sub_nonneg.2 hpnQ)]

/-- Monotonicity of the interpolated value in the virtual index, over a
sorted list. -/
lemma npLerp_mono (s : List ℤ) (hs : List.Sorted (· ≤ ·) s) {v1 v2 : ℚ}
    (h0 : 0 ≤ v1) (h12 : v1 ≤ v2) (h2 : v2 ≤ (s.length : ℚ) - 1) :
    npLerp s v1 ≤ npLerp s v2 := by
  by_cases hf : ⌊v1⌋ = ⌊v2⌋
  · by_cases hint : (⌊v1⌋ : ℚ) = v1
    · have hv1 : npLerp s v1 = (s.getD ⌊v1⌋.toNat 0 : ℚ) := by
        have hz : v1 - (⌊v1⌋ : ℚ) = 0 := by rw [hint]; ring
        rw [npLerp_def, hz]
        ring
      rw [hv1, hf]
      exact (npLerp_bounds s hs v2 (le_trans h0 h12) h2).1
    · have hint2 : (⌊v2⌋ : ℚ) ≠ v2 := by
        intro hcon
        apply hint
        have ha : (⌊v1⌋ : ℚ) ≤ v1 := Int.floor_le v1
        have hb : v2 = (⌊v1⌋ : ℚ) := by rw [← hcon, hf]
        linarith
    -- both indexes are non-integral and share floor and ceiling
      have hc1 : ⌈v1⌉ = ⌊v1⌋ + 1 := ceil_eq_floor_add_one_of_ne hint
      have hc2 : ⌈v2⌉ = ⌊v2⌋ + 1 := ceil_eq_floor_add_one_of_ne hint2
      rw [npLerp_def, npLerp_def, hc1, hc2, hf]
      have hhi : (⌊v2⌋ + 1).toNat < s.length := by
        have := ceil_toNat_lt (le_trans h0 h12) h2
        rw [hc2] at this
        exact this
      have hmono : s.getD ⌊v2⌋.toNat 0 ≤ s.getD (⌊v2⌋ + 1).toNat 0 := by
        refine sorted_getD_mono hs ?_ hhi
        have : 0 ≤ ⌊v2⌋ := Int.floor_nonneg.2 (le_trans h0 h12)
        omega
      have hmonoQ : (s.getD ⌊v2⌋.toNat 0 : ℚ) ≤ (s.getD (⌊v2⌋ + 1).toNat 0 : ℚ) := by
        exact_mod_cast hmono
      nlinarith [sub_nonneg.2 hmonoQ, sub_nonneg.2 h12]
  · have hlt : ⌊v1⌋ < ⌊v2⌋ := lt_of_le_of_ne (Int.floor_mono h12) hf
    have h0' : 0 ≤ v2 := le_trans h0 h12
    have h1' : v1 ≤ (s.length : ℚ) - 1 := le_trans h12 h2
    have hmid : (s.getD ⌈v1⌉.toNat 0 : ℚ) ≤ (s.getD ⌊v2⌋.toNat 0 : ℚ) := by
      have hidx : ⌈v1⌉.toNat ≤ ⌊v2⌋.toNat := by
        have ha : ⌈v1⌉ ≤ ⌊v1⌋ + 1 := Int.ceil_le_floor_add_one v1
        have hb : 0 ≤ ⌊v1⌋ := Int.floor_nonneg.2 h0
        omega
      have hj : ⌊v2⌋.toNat < s.length := floor_toNat_lt h0' h2
      exact_mod_cast sorted_getD_mono hs hidx hj
    calc npLerp s v1 ≤ (s.getD ⌈v1⌉.toNat 0 : ℚ) := (npLerp_bounds s hs v1 h0 h1').2
      _ ≤ (s.getD ⌊v2⌋.toNat 0 : ℚ) := hmid
      _ ≤ npLerp s v2 := (npLerp_bounds s hs v2 h0' h2).1

lemma pySorted_sorted (seq : List ℤ) : List.Sorted (· ≤ ·) (pySorted seq) :=
  List.sorted_insertionSort _ seq

lemma pySorted_perm (seq : List ℤ) : List.Perm (pySorted seq) seq :=
  List.perm_insertionSort _ seq

lemma pySorted_length (seq : List ℤ) : (pySorted seq).length = seq.length :=
  (pySorted_perm seq).length_eq

/-- `npPercentile` on a non-empty sequence is `npLerp` at the virtual index. -/
lemma npPercentile_eq (seq : List ℤ) (hne : seq ≠ []) (p : ℚ) :
    npPercentile seq p =
      npLerp (pySorted seq) (p / 100 * (((pySorted seq).length : ℚ) - 1)) := by
  have hn : (pySorted seq).length ≠ 0 := by
    rw [pySorted_length]
    simpa using hne
  rw [npPercentile]
  exact if_neg hn

/-- Position of the virtual index within `[0, n-1]`. -/
lemma vi_facts (p : ℚ) (n : ℕ) (hp0 : 0 ≤ p) (hp1 : p ≤ 100) (hn : 1 ≤ n) :
    0 ≤ p / 100 * ((n : ℚ) - 1) ∧ p / 100 * ((n : ℚ) - 1) ≤ (n : ℚ) - 1 := by
  have hc : (1 : ℚ) ≤ (n : ℚ) := by exact_mod_cast hn
  have hd0 : 0 ≤ p / 100 := div_nonneg hp0 (by norm_num)
  have hd1 : p / 100 ≤ 1 := div_le_one_of_le₀ hp1 (by norm_num)
  constructor
  · exact mul_nonneg hd0 (by linarith)
  · nlinarith

/-- `statistics.median` agrees with the linear-interpolation value at the
virtual index of the 50th percentile. -/
lemma statistics_median_eq_npLerp (seq : List ℤ) (hne : seq ≠ []) :
    statistics_median seq =
      .ok (npLerp (pySorted seq) (50 / 100 * (((pySorted seq).length : ℚ) - 1))) := by
  have hn0 : seq.length ≠ 0 := by simpa using hne
  have hsl : (pySorted seq).length = seq.length := pySorted_length seq
  by_cases hodd : seq.length % 2 = 1
  · obtain ⟨m, hm⟩ : ∃ m, seq.length = 2 * m + 1 := ⟨seq.length / 2, by omega⟩
    have hd2 : seq.length / 2 = m := by omega
    have hvi : (50 : ℚ) / 100 * (((pySorted seq).length : ℚ) - 1) = ((m : ℤ) : ℚ) := by
      rw [hsl, hm]
      push_cast
      ring
    have hlerp : npLerp (pySorted seq)
        (50 / 100 * (((pySorted seq).length : ℚ) - 1)) =
        ((pySorted seq).getD m 0 : ℚ) := by
      rw [npLerp_def, hvi, Int.floor_intCast, Int.ceil_intCast,
        show ((m : ℤ)).toNat = m from rfl]
      ring
    rw [hlerp, statistics_median]
    simp only [hn0, if_false, hodd, if_pos, hd2]
  · obtain ⟨m, hm⟩ : ∃ m, seq.length = 2 * m := ⟨seq.length / 2, by omega⟩
    have hd2 : seq.length / 2 = m := by omega
    have hm1 : 1 ≤ m := by omega
    have hvi : (50 : ℚ) / 100 * (((pySorted seq).length : ℚ) - 1) =
        (((m : ℤ) - 1 : ℤ) : ℚ) + (1 : ℚ) / 2 := by
      rw [hsl, hm]
      push_cast
      ring
    have hfl : ⌊(50 : ℚ) / 100 * (((pySorted seq).length : ℚ) - 1)⌋ =
        (m : ℤ) - 1 := by
      rw [hvi, Int.floor_int_add]
      norm_num
    have hcl : ⌈(50 : ℚ) / 100 * (((pySorted seq).length : ℚ) - 1)⌉ = (m : ℤ) := by
      rw [hvi, add_comm, Int.ceil_add_int]
      have hhalf : ⌈(1 : ℚ) / 2⌉ = 1 := by
        rw [Int.ceil_eq_iff]
        constructor <;> norm_num
      rw [hhalf]
      ring
    have htf : (((m : ℤ) - 1 : ℤ)).toNat = m - 1 := by omega
    have hg : (50 : ℚ) / 100 * (((pySorted seq).length : ℚ) - 1) -
        (((m : ℤ) - 1 : ℤ) : ℚ) = 1 / 2 := by
      rw [hvi]
      push_cast
      ring
    have hlerp : npLerp (pySorted seq)
        (50 / 100 * (((pySorted seq).length : ℚ) - 1)) =
        (((pySorted seq).getD (m - 1) 0 : ℚ) +
          ((pySorted seq).getD m 0 : ℚ)) / 2 := by
      rw [npLerp_def, hfl, hcl, htf, show ((m : ℤ)).toNat = m from rfl, hg]
      ring
    rw [hlerp, statistics_median]
    simp only [hn0, if_false, hodd, if_false, hd2]

/-! ## Claim theorems: percentile ordering and definition (C1, C2) -/

/-- C1: for `|S| ≥ 2` the record built by `from_int_seq` satisfies
`min ≤ percentile_05 ≤ median ≤ percentile_95 ≤ max`. -/
theorem C1_percentile_order (c : String) (seq : List ℤ) (t : ℤ)
    (h : 2 ≤ seq.length) :
    ∃ r, SummaryStatistics.from_int_seq c seq t = .ok r ∧
      (r.min : ℚ) ≤ r.percentile_05 ∧ r.percentile_05 ≤ r.median ∧
      r.median ≤ r.percentile_95 ∧ r.percentile_95 ≤ (r.max : ℚ) := by
  obtain ⟨r, hr, hmed, hmn, hmx, -, -, hp05, hp95, -, -⟩ :=
    from_int_seq_ok_of_two_le c t h
  have hne : seq ≠ [] := by
    intro hcon
    rw [hcon] at h
    simp at h
  have hs : List.Sorted (· ≤ ·) (pySorted seq) := pySorted_sorted seq
  have hsl : (pySorted seq).length = seq.length := pySorted_length seq
  have hn1 : 1 ≤ (pySorted seq).length := by omega
  obtain ⟨h05a, h05b⟩ := vi_facts 5 (pySorted seq).length (by norm_num) (by norm_num) hn1
  obtain ⟨h50a, h50b⟩ := vi_facts 50 (pySorted seq).length (by norm_num) (by norm_num) hn1
  obtain ⟨h95a, h95b⟩ := vi_facts 95 (pySorted seq).length (by norm_num) (by norm_num) hn1
  have hvi0555 : (5 : ℚ) / 100 * (((pySorted seq).length : ℚ) - 1) ≤
      50 / 100 * (((pySorted seq).length : ℚ) - 1) := by
    have hc : (1 : ℚ) ≤ ((pySorted seq).length : ℚ) := by exact_mod_cast hn1
    nlinarith
  have hvi5095 : (50 : ℚ) / 100 * (((pySorted seq).length : ℚ) - 1) ≤
      95 / 100 * (((pySorted seq).length : ℚ) - 1) := by
    have hc : (1 : ℚ) ≤ ((pySorted seq).length : ℚ) := by exact_mod_cast hn1
    nlinarith
  have hmedv : r.median =
      npLerp (pySorted seq) (50 / 100 * (((pySorted seq).length : ℚ) - 1)) := by
    have h1 : (Except.ok r.median : Except String ℚ) =
        Except.ok (npLerp (pySorted seq)
          (50 / 100 * (((pySorted seq).length : ℚ) - 1))) :=
      hmed.symm.trans (statistics_median_eq_npLerp seq hne)
    exact Except.ok.inj h1
  have hp05v : r.percentile_05 =
      npLerp (pySorted seq) (5 / 100 * (((pySorted seq).length : ℚ) - 1)) := by
    rw [hp05, npPercentile_eq seq hne]
  have hp95v : r.percentile_95 =
      npLerp (pySorted seq) (95 / 100 * (((pySorted seq).length : ℚ) - 1)) := by
    rw [hp95, npPercentile_eq seq hne]
  refine ⟨r, hr, ?_, ?_, ?_, ?_⟩
  · -- min ≤ percentile_05
    rw [hp05v]
    have hlow := (npLerp_bounds (pySorted seq) hs _ h05a h05b).1
    refine le_trans ?_ hlow
    have hidx : ⌊(5 : ℚ) / 100 * (((pySorted seq).length : ℚ) - 1)⌋.toNat <
        (pySorted seq).length := floor_toNat_lt h05a h05b
    have hmem : (pySorted seq).getD
        ⌊(5 : ℚ) / 100 * (((pySorted seq).length : ℚ) - 1)⌋.toNat 0 ∈ seq := by
      rw [List.getD_eq_getElem _ _ hidx]
      exact (pySorted_perm seq).subset (List.getElem_mem _)
    exact_mod_cast (pyMin_le hmn).2 _ hmem
  · rw [hp05v, hmedv]
    exact npLerp_mono (pySorted seq) hs h05a hvi0555 h50b
  · rw [hmedv, hp95v]
    exact npLerp_mono (pySorted seq) hs h50a hvi5095 h95b
  · rw [hp95v]
    have hhigh := (npLerp_bounds (pySorted seq) hs _ h95a h95b).2
    refine le_trans hhigh ?_
    have hidx : ⌈(95 : ℚ) / 100 * (((pySorted seq).length : ℚ) - 1)⌉.toNat <
        (pySorted seq).length := ceil_toNat_lt h95a h95b
    have hmem : (pySorted seq).getD
        ⌈(95 : ℚ) / 100 * (((pySorted seq).length : ℚ) - 1)⌉.toNat 0 ∈ seq := by
      rw [List.getD_eq_getElem _ _ hidx]
      exact (pySorted_perm seq).subset (List.getElem_mem _)
    exact_mod_cast (pyMax_ge hmx).2 _ hmem

/-- C1 witness at `S = [1, 2, 3]`. -/
theorem C1_percentile_order_witness :
    2 ≤ ([1, 2, 3] : List ℤ).length ∧
    ∃ r, SummaryStatistics.from_int_seq "w" [1, 2, 3] 8191 = .ok r ∧
      (r.min : ℚ) ≤ r.percentile_05 ∧ r.percentile_05 ≤ r.median ∧
      r.median ≤ r.percentile_95 ∧ r.percentile_95 ≤ (r.max : ℚ) :=
  ⟨by simp, C1_percentile_order "w" [1, 2, 3] 8191 (by simp)⟩

/-- NumPy's floor/ceiling interpolation coincides with the spec's wording of
linear interpolation at the same virtual index. -/
lemma npLerp_eq_specLinearPercentile (s : List ℤ) (p : ℚ) (hp : 0 ≤ p)
    (hn : 1 ≤ s.length) :
    npLerp s (p / 100 * ((s.length : ℚ) - 1)) = specLinearPercentile s p := by
  have hidx0 : 0 ≤ p / 100 * ((s.length : ℚ) - 1) := by
    have hc : (1 : ℚ) ≤ (s.length : ℚ) := by exact_mod_cast hn
    have hd0 : 0 ≤ p / 100 := div_nonneg hp (by norm_num)
    nlinarith
  by_cases hfrac : p / 100 * ((s.length : ℚ) - 1) -
      (⌊p / 100 * ((s.length : ℚ) - 1)⌋ : ℚ) = 0
  · have hint : (⌊p / 100 * ((s.length : ℚ) - 1)⌋ : ℚ) =
        p / 100 * ((s.length : ℚ) - 1) := by linarith
    have hcl : ⌈p / 100 * ((s.length : ℚ) - 1)⌉ =
        ⌊p / 100 * ((s.length : ℚ) - 1)⌋ := by
      rw [← hint, Int.ceil_intCast, Int.floor_intCast]
    rw [npLerp_def, hcl, specLinearPercentile]
    simp only [if_pos hfrac]
    rw [hfrac]
    ring
  · have hcl : ⌈p / 100 * ((s.length : ℚ) - 1)⌉ =
        ⌊p / 100 * ((s.length : ℚ) - 1)⌋ + 1 :=
      ceil_eq_floor_add_one_of_ne fun hcon => hfrac (by rw [hcon]; ring)
    have hfl0 : 0 ≤ ⌊p / 100 * ((s.length : ℚ) - 1)⌋ := Int.floor_nonneg.2 hidx0
    have htn : (⌊p / 100 * ((s.length : ℚ) - 1)⌋ + 1).toNat =
        ⌊p / 100 * ((s.length : ℚ) - 1)⌋.toNat + 1 := by omega
    rw [npLerp_def, hcl, htn, specLinearPercentile]
    simp only [if_neg hfrac]
    ring

/-- C2: the `percentile_05` / `percentile_95` fields computed by
`from_int_seq` (i.e. `np.percentile(seq, p)` with the default method) equal
the spec's linear-interpolation percentile of the sorted sequence: the value
at fractional index `p/100 * (n-1)`, interpolating between adjacent ranks
when that index is not integral. -/
theorem C2_percentiles_linear_interpolation (c : String) (seq : List ℤ) (t : ℤ)
    (r : SummaryStatistics) (hne : seq ≠ [])
    (hr : SummaryStatistics.from_int_seq c seq t = .ok r) :
    npPercentile seq 5 = specLinearPercentile (pySorted seq) 5 ∧
    npPercentile seq 95 = specLinearPercentile (pySorted seq) 95 ∧
    r.percentile_05 = specLinearPercentile (pySorted seq) 5 ∧
    r.percentile_95 = specLinearPercentile (pySorted seq) 95 := by
  have hn1 : 1 ≤ (pySorted seq).length := by
    rw [pySorted_length]
    have : seq.length ≠ 0 := by simpa using hne
    omega
  have h5 : npPercentile seq 5 = specLinearPercentile (pySorted seq) 5 := by
    rw [npPercentile_eq seq hne]
    exact npLerp_eq_specLinearPercentile _ 5 (by norm_num) hn1
  have h95 : npPercentile seq 95 = specLinearPercentile (pySorted seq) 95 := by
    rw [npPercentile_eq seq hne]
    exact npLerp_eq_specLinearPercentile _ 95 (by norm_num) hn1
  obtain ⟨-, -, -, -, -, -, hp05, hp95, -, -⟩ := from_int_seq_ok_elim hr
  exact ⟨h5, h95, by rw [hp05, h5], by rw [hp95, h95]⟩

/-- C2 witness at `S = [0, 1, 10000]`. -/
theorem C2_percentiles_linear_interpolation_witness :
    ([0, 1, 10000] : List ℤ) ≠ [] ∧
    npPercentile [0, 1, 10000] 5 = specLinearPercentile (pySorted [0, 1, 10000]) 5 ∧
    npPercentile [0, 1, 10000] 95 = specLinearPercentile (pySorted [0, 1, 10000]) 95 ∧
    demoRecord.percentile_05 = specLinearPercentile (pySorted [0, 1, 10000]) 5 ∧
    demoRecord.percentile_95 = specLinearPercentile (pySorted [0, 1, 10000]) 95 :=
  ⟨by simp,
   C2_percentiles_linear_interpolation "demo" [0, 1, 10000] ADA_MAX_TOKENS demoRecord
     (by simp) rfl⟩

end TxtCollStats
